import Mathlib

/-!
Verification of the `suggest-file` argument-resolution engine
(repository `Crystalix007/cli-tools`).

This file gives a shallow embedding of the resolution core:

* `glob/glob.go`  — `Expand`, `expandGlob`, `expandPrefix` (here `expandPfx`),
  `expandTilde`, `splitPattern`, `containsMeta`;
* `walker/walker.go` — `IsIncludableFile`, `walkFiltered`, `Walk`,
  `WalkCollect`, `ListDir`.

Path strings are modelled exactly as Go manipulates them: the relevant
parts of Go's `path/filepath` (`Clean`, `Dir`, `Base`, `Join`, `IsAbs`)
and `strings` (`Split`, `Join`, `HasPrefix`, `HasSuffix`, `ContainsAny`)
are ported over `List Char`, following the Unix code paths (the
separator is `'/'`, there are no volume names).

The filesystem is modelled as an oracle `FSys` giving, per path string,
the result of `os.Stat` (follows symlinks), `os.Lstat` (does not), and
`os.ReadDir` (entry names with their `DirEntry` types, in directory
order).  Recursive traversals take a fuel parameter; on a finite
filesystem a large enough fuel makes the model agree with the code.
-/

namespace SuggestFile

/-! ### String primitives (ports of Go `strings` helpers) -/

/-- Char-list prefix test; `hasPfx s pre` mirrors Go `strings.HasPrefix(s, pre)`. -/
def listHasPfx : List Char → List Char → Bool
  | [], _ => true
  | _ :: _, [] => false
  | p :: ps, c :: cs => p = c && listHasPfx ps cs

/-- Go `strings.HasPrefix(s, pre)`. -/
def hasPfx (s pre : String) : Bool :=
  listHasPfx pre.data s.data

/-- Go `strings.HasSuffix(s, c)` for a single-character suffix. -/
def hasSfx (s : String) (c : Char) : Bool :=
  s.data.getLast? = some c

/-- Go slice expression `s[1:]` for a string whose first character is
one byte wide (it is only applied after matching a leading `'~'`). -/
def strTail (s : String) : String :=
  String.mk (s.data.drop 1)

/-- Worker for `splitSlash`: scans the characters, cutting at `'/'`.
`acc` holds the current component in reverse. -/
def splitSlashAux : List Char → List Char → List String
  | [], acc => [String.mk acc.reverse]
  | c :: cs, acc =>
    if c = '/' then String.mk acc.reverse :: splitSlashAux cs []
    else splitSlashAux cs (c :: acc)

/-- Go `strings.Split(s, "/")`. -/
def splitSlash (s : String) : List String :=
  splitSlashAux s.data []

/-- Go `strings.Join(parts, "/")`. -/
def joinSlash : List String → String
  | [] => ""
  | [x] => x
  | x :: xs => x ++ "/" ++ joinSlash xs

/-- Go `containsMeta` (glob.go): `strings.ContainsAny(s, "*?[{")`. -/
def containsMeta (s : String) : Bool :=
  s.data.any fun c => c = '*' || c = '?' || c = '[' || c = Char.ofNat 123

/-! ### Ports of Go `path/filepath` (Unix code paths) -/

/-- Go `filepath.IsAbs` on Unix: the path begins with the separator. -/
def filepathIsAbs (p : String) : Bool :=
  hasPfx p "/"

/-- Component processing of Go `filepath.Clean`.  The first list is the
remaining components (as produced by splitting on `'/'`); `stack` is the
output buffer in reverse.  Empty and `"."` components are dropped;
`".."` pops a poppable component, is dropped at the root of a rooted
path, and is kept otherwise.  Mirrors the `out.w` / `dotdot` buffer
logic of Go's `Clean`. -/
def cleanStack (rooted : Bool) : List String → List String → List String
  | [], stack => stack
  | c :: cs, stack =>
    if c = "" then cleanStack rooted cs stack
    else if c = "." then cleanStack rooted cs stack
    else if c = ".." then
      match stack with
      | t :: rest =>
        if t = ".." then
          -- Appended ".." components are never popped (non-rooted case);
          -- a rooted stack never contains "..".
          cleanStack rooted cs (if rooted then t :: rest else ".." :: t :: rest)
        else cleanStack rooted cs rest
      | [] => cleanStack rooted cs (if rooted then [] else [".."])
    else cleanStack rooted cs (c :: stack)

/-- Go `filepath.Clean` on Unix. -/
def filepathClean (p : String) : String :=
  if p = "" then "."
  else
    let rooted := hasPfx p "/"
    let comps := (cleanStack rooted (splitSlash p) []).reverse
    if comps = [] then (if rooted then "/" else ".")
    else (if rooted then "/" else "") ++ joinSlash comps

/-- Go `filepath.Base` on Unix. -/
def filepathBase (p : String) : String :=
  if p = "" then "."
  else
    -- Strip trailing slashes.
    let q := (p.data.reverse.dropWhile (· = '/')).reverse
    if q = [] then "/"
    else String.mk (q.reverse.takeWhile (· ≠ '/')).reverse

/-- Go `filepath.Dir` on Unix: `Clean` of everything up to and including
the final separator (`Clean ""` = `"."` when there is none). -/
def filepathDir (p : String) : String :=
  filepathClean (String.mk (p.data.reverse.dropWhile (· ≠ '/')).reverse)

/-- Go `filepath.Join(a, b)`: empty elements are dropped, the rest are
joined with the separator, and the result is cleaned.  `Join` of no
non-empty elements is `""`. -/
def filepathJoin (a b : String) : String :=
  if a = "" && b = "" then ""
  else if a = "" then filepathClean b
  else if b = "" then filepathClean a
  else filepathClean (a ++ "/" ++ b)

/-! ### Glob base splitting (glob.go `splitPattern`) -/

/-- Loop of `splitPattern`: starting at index `i`, scan the remaining
components for the first one containing a glob metacharacter and return
its index (the total length when none does).  Mirrors
`idx := start; for idx < len(parts) { if containsMeta(parts[idx]) break; idx++ }`. -/
def scanMeta : List String → Nat → Nat
  | [], i => i
  | c :: cs, i => if containsMeta c then i else scanMeta cs (i + 1)

/-- Go `splitPattern` (glob.go): splits a pattern into a static base
directory (the longest metacharacter-free prefix of components) and the
remaining glob expression. -/
def splitPattern (pattern : String) : String × String :=
  let pattern := filepathClean pattern
  let isAbs := filepathIsAbs pattern
  let parts := splitSlash pattern
  -- On Unix, absolute paths produce an empty first element; skip it.
  let start := if isAbs && parts.head? = some "" then 1 else 0
  let idx := scanMeta (parts.drop start) start
  if idx = start then
    -- The very first meaningful component is a glob.
    if isAbs then ("/", joinSlash (parts.drop start))
    else (".", pattern)
  else
    let base := joinSlash (parts.take idx)
    let base := if base = "" then "/" else base
    if idx = parts.length then
      -- All metacharacters were eliminated by Clean (e.g. "foo/*/..").
      (filepathDir pattern, filepathBase pattern)
    else
      (base, joinSlash (parts.drop idx))

/-! ### Filesystem model -/

/-- The `fs.FileMode` type classes relevant to the code, as seen by
`os.Lstat` / `fs.DirEntry.Type()` (symlinks are not followed). -/
inductive FType where
  | regular
  | directory
  | symlink
  | special
deriving DecidableEq, Repr

/-- The type of an entry as seen by `os.Stat` (symlinks followed):
regular file, directory, or any other (socket, device, FIFO). -/
inductive RType where
  | rfile
  | rdir
  | rother
deriving DecidableEq, Repr

/-- Outcome of `os.Stat`: success with a resolved type, an error for
which `os.IsNotExist` holds (including dangling symlinks), or any other
error (e.g. permission denied on a parent). -/
inductive StatResult where
  | ok (t : RType)
  | notExist
  | otherError
deriving DecidableEq, Repr

/-- A snapshot of the filesystem as an oracle over path strings.

* `stat p` — result of `os.Stat(p)` (follows symlinks);
* `lstat p` — the `os.Lstat` type of `p`, `none` when the path does not
  exist or cannot be lstat-ed;
* `readDir d` — the result of `os.ReadDir(d)`: the entry names with
  their `DirEntry` types in directory order (sorted by filename), or
  `none` when the listing fails (permission or I/O error, or `d` is not
  a directory). -/
structure FSys where
  stat : String → StatResult
  lstat : String → Option FType
  readDir : String → Option (List (String × FType))

/-- Coherence of a filesystem snapshot, as guaranteed by POSIX at a
fixed instant: a path whose lstat type is `regular` stats to a regular
file, and `ReadDir` entry types agree with `Lstat` of the joined path. -/
def FSys.WF (fs : FSys) : Prop :=
  (∀ p, fs.lstat p = some .regular → fs.stat p = .ok .rfile) ∧
  (∀ d es n t, fs.readDir d = some es → (n, t) ∈ es →
    fs.lstat (filepathJoin d n) = some t)

/-! ### Walker (walker.go) -/

/-- Go `IsIncludableFile(path, mode)` (walker.go): for a symlink,
`os.Stat` the path; a stat error (dangling link) or a directory target
gives `false`, otherwise the answer is whether the target is regular.
For a non-symlink, the answer is whether the mode itself is regular. -/
def IsIncludableFile (fs : FSys) (path : String) (t : FType) : Bool :=
  match t with
  | .symlink =>
    match fs.stat path with
    | .ok .rfile => true
    | _ => false        -- stat error, directory, or other resolved type
  | .regular => true
  | _ => false

/-- Concatenates result pairs (emitted paths, reported error paths) in
order; models Go's in-order `append` accumulation across a loop. -/
def catPairs : List (List String × List String) → List String × List String
  | [] => ([], [])
  | x :: xs =>
    let r := catPairs xs
    (x.1 ++ r.1, x.2 ++ r.2)

/-- One visit of `filepath.WalkDir`'s callback in `walkFiltered`
(walker.go), for the entry at `path` with name `name` and lstat type
`t`, walking from `root`.  Returns the emitted file paths and the paths
reported on stderr.

* A directory named with a leading `'.'` other than the root itself is
  skipped (`fs.SkipDir`).
* A `ReadDir` failure on a directory is reported by the callback (which
  returns nil) and the walk continues with the remaining entries.
* Non-directories are emitted iff `IsIncludableFile` accepts them.

`rec` is the continuation for visiting one-level-deeper entries
(instantiated with `visit` at one less fuel). -/
def visitCore (fs : FSys)
    (rec : String → String → String → FType → List String × List String)
    (root path name : String) : FType → List String × List String
  | .directory =>
    if path ≠ root && hasPfx name "." then ([], [])
    else
      match fs.readDir path with
      | none => ([], [path])
      | some entries =>
        catPairs (entries.map fun e => rec root (filepathJoin path e.1) e.1 e.2)
  | t =>
    (if IsIncludableFile fs path t then [path] else [], [])

/-- The recursive walk, by fuel: each level of `fuel` allows one more
level of directory descent (with no fuel a directory's entries are not
visited, which never happens on a finite filesystem with enough fuel). -/
def visit (fs : FSys) : Nat → String → String → String → FType → List String × List String
  | 0 => visitCore fs fun _ _ _ _ => ([], [])
  | fuel + 1 => visitCore fs (visit fs fuel)

/-- The combined visit of a directory's entry list (the loop over
`ReadDir` results inside `filepath.WalkDir`). -/
def walkEntries (fs : FSys) (fuel : Nat) (root path : String)
    (entries : List (String × FType)) : List String × List String :=
  catPairs (entries.map fun e =>
    visit fs fuel root (filepathJoin path e.1) e.1 e.2)

/-- Go `walkFiltered(root, emit)` (walker.go): `filepath.WalkDir` from
`root`.  An `Lstat` failure on the root itself is reported via the
callback (which returns nil, so the walk function returns nil).  The
root's `DirEntry` name is its base name.  The first list is the emitted
paths (in emission order), the second the reported error paths; the
function's Go error return is always nil because the callback never
returns a non-nil error other than `fs.SkipDir`. -/
def walkFiltered (fs : FSys) (fuel : Nat) (root : String) : List String × List String :=
  match fs.lstat root with
  | none => ([], [root])
  | some t => visit fs fuel root root (filepathBase root) t

/-- Go `WalkCollect(root)` (walker.go): the collected emissions of
`walkFiltered` (its error is always nil; see `walkFiltered`).  `Walk`
prints the same paths to stdout instead. -/
def WalkCollect (fs : FSys) (fuel : Nat) (root : String) : List String :=
  (walkFiltered fs fuel root).1

/-- The stderr reports of a walk (same traversal as `WalkCollect`). -/
def walkReported (fs : FSys) (fuel : Nat) (root : String) : List String :=
  (walkFiltered fs fuel root).2

/-- Error kinds of the resolution core, standing for the wrapped
`fmt.Errorf` errors the Go code returns. -/
inductive ExpandError where
  | homeDirectoryUnavailable          -- "expanding ~: ..."
  | statFailed (path : String)        -- "stat %q: ..."
  | directoryUnreadable (dir : String) -- "listing %q: ..." / "reading directory %q: ..."
deriving DecidableEq, Repr

/-- Go `ListDir(dir)` (walker.go): list the directory one level deep and
keep the entries accepted by `IsIncludableFile` (hidden names included). -/
def ListDir (fs : FSys) (dir : String) : Except ExpandError (List String) :=
  match fs.readDir dir with
  | none => .error (.directoryUnreadable dir)
  | some entries =>
    .ok (entries.filterMap fun e =>
      let full := filepathJoin dir e.1
      if IsIncludableFile fs full e.2 then some full else none)

/-! ### Glob matching (modelled doublestar library) -/

/-- Modelled from the spec: single-component matching of the doublestar
library (`github.com/bmatcuk/doublestar/v4`), whose source is a
dependency and not part of this repository.  Supports `*` (any run of
characters excluding the separator), `?` (a single character), and
literal characters; character classes and alternation are omitted as
they do not bear on the verified properties.  `tryStar f cs` lets a
`*` consume any (possibly empty) leading run of characters of `cs`
before matching the rest of the pattern via `f`. -/
def tryStar (f : List Char → Bool) : List Char → Bool
  | [] => f []
  | c :: cs => f (c :: cs) || tryStar f cs

def compMatch : List Char → List Char → Bool
  | [], cs => cs.isEmpty
  | p :: ps, cs =>
    if p = '*' then tryStar (compMatch ps) cs
    else
      match cs with
      | [] => false
      | c :: cs' => (if p = '?' then true else p = c) && compMatch ps cs'

/-- Modelled from the spec: a pattern component matches a name, subject
to the hidden-entry rule — "the doublestar library does not match hidden
files/directories (names starting with '.') unless the pattern
explicitly starts with '.'" (glob.go package comment; spec 4.5). -/
def compMatchHidden (pat name : String) : Bool :=
  if hasPfx name "." && !hasPfx pat "." then false
  else compMatch pat.data name.data

/-- Modelled from the spec: component-wise glob matching with `**`
(zero or more path segments, recursive); a `**` segment never consumes a
hidden component, per the hidden-entry rule.  `tryStarStar f ns` lets a
`**` consume any run of non-hidden leading components of `ns` before
matching the rest of the pattern via `f`. -/
def tryStarStar (f : List String → Bool) : List String → Bool
  | [] => f []
  | n :: ns => f (n :: ns) || (!hasPfx n "." && tryStarStar f ns)

def globMatch : List String → List String → Bool
  | [], ns => ns.isEmpty
  | p :: ps, ns =>
    if p = "**" then tryStarStar (globMatch ps) ns
    else
      match ns with
      | [] => false
      | n :: ns' => compMatchHidden p n && globMatch ps ns'

/-- All paths of filesystem entries below `dir`, relative to `dir`, in
directory order (entries inside unreadable directories are silently
absent, consistent with the tolerated-error policy of spec 7).  `rec`
is the continuation for enumerating one level deeper. -/
def allRelPathsCore (fs : FSys) (rec : String → List String) (dir : String) : List String :=
  match fs.readDir dir with
  | none => []
  | some entries =>
    (entries.map fun e =>
      e.1 :: (if e.2 = .directory then
        (rec (filepathJoin dir e.1)).map fun r => e.1 ++ "/" ++ r
      else [])).flatten

def allRelPaths (fs : FSys) : Nat → String → List String
  | 0, _ => []
  | fuel + 1, dir => allRelPathsCore fs (allRelPaths fs fuel) dir

/-- Modelled from the spec: `doublestar.Glob(os.DirFS(base), globPart)` —
the entries below `base` whose base-relative path matches the glob
expression, per the modelled matching semantics above. -/
def doublestarMatches (fs : FSys) (fuel : Nat) (base globPart : String) : List String :=
  (allRelPaths fs fuel base).filter fun rel =>
    globMatch (splitSlash globPart) (splitSlash rel)

/-- Go `expandGlob(pattern)` (glob.go): split the pattern, glob below
the base, join each match back onto the base, `Lstat` it (skipping
entries that cannot be stat-ed), and keep those accepted by
`IsIncludableFile`.  The modelled matcher does not produce syntax
errors, so the `doublestar.Glob` error branch is not represented. -/
def expandGlob (fs : FSys) (fuel : Nat) (pattern : String) : Except ExpandError (List String) :=
  let split := splitPattern pattern
  let ms := doublestarMatches fs fuel split.1 split.2
  .ok (ms.filterMap fun m =>
    let full := filepathJoin split.1 m
    match fs.lstat full with
    | none => none                     -- skip entries we cannot stat
    | some t => if IsIncludableFile fs full t then some full else none)

/-! ### Prefix matching (glob.go `expandPrefix`) -/

/-- Go `expandPrefix(path)` (glob.go): treat the last component of
`path` as a prefix and scan the parent directory's entries.  An entry
whose name has the prefix is resolved: symlinks are stat-ed (a stat
failure — dangling link — skips the entry); entries resolving to
directories are walked recursively with `WalkCollect`; other entries are
included iff `IsIncludableFile` accepts them.  A `ReadDir` failure on
the parent is an error. -/
def expandPfx (fs : FSys) (fuel : Nat) (path : String) : Except ExpandError (List String) :=
  let dir := filepathDir path
  let pfx := filepathBase path
  match fs.readDir dir with
  | none => .error (.directoryUnreadable dir)
  | some entries =>
    .ok ((entries.map fun e =>
      if !hasPfx e.1 pfx then []
      else
        let full := filepathJoin dir e.1
        if e.2 = .symlink then
          match fs.stat full with
          | .ok r =>
            if r = .rdir then WalkCollect fs fuel full
            else if IsIncludableFile fs full e.2 then [full] else []
          | _ => []                   -- dangling symlink — skip
        else if e.2 = .directory then WalkCollect fs fuel full
        else if IsIncludableFile fs full e.2 then [full] else []).flatten)

/-! ### Tilde expansion and the resolver (glob.go `expandTilde`, `Expand`) -/

/-- Go `expandTilde(pattern)` (glob.go).  `home` models
`os.UserHomeDir()`: `none` when the home directory cannot be
determined. -/
def expandTilde (home : Option String) (pattern : String) : Except ExpandError String :=
  if pattern = "~" || hasPfx pattern "~/" then
    match home with
    | none => .error .homeDirectoryUnavailable
    | some h =>
      if pattern.length > 1 then .ok (h ++ strTail pattern)
      else .ok h
  else .ok pattern

/-- Go `Expand(pattern)` (glob.go): the resolution-precedence
orchestrator.  Tilde expansion; glob expansion when the expanded
argument contains a metacharacter; one-level listing when it had a
trailing slash; otherwise `os.Stat`: a directory is walked recursively,
a regular file is returned as a single-element result, a
does-not-exist error falls through to prefix matching (as does a
successful stat of any other entry type), and any other stat error is
surfaced. -/
def Expand (fs : FSys) (home : Option String) (fuel : Nat) (pattern : String) :
    Except ExpandError (List String) :=
  match expandTilde home pattern with
  | .error e => .error e
  | .ok expanded =>
    let trailingSlash := hasSfx expanded '/'
    if containsMeta expanded then
      expandGlob fs fuel expanded
    else
      let cleaned := filepathClean expanded
      if trailingSlash then
        ListDir fs cleaned
      else
        match fs.stat cleaned with
        | .ok t =>
          if t = .rdir then .ok (WalkCollect fs fuel cleaned)
          else if t = .rfile then .ok [cleaned]
          else expandPfx fs fuel cleaned
        | .notExist => expandPfx fs fuel cleaned
        | .otherError => .error (.statFailed cleaned)

/-! ### Concrete filesystem fixtures (used by witnesses) -/

/-- The directory tree of the spec's section 8 scenario:
`proj/{a.txt, b.txt, .git/config, sub/c.txt}`. -/
def pfs : FSys where
  stat := fun p =>
    if p = "proj" then .ok .rdir
    else if p = "proj/a.txt" then .ok .rfile
    else if p = "proj/b.txt" then .ok .rfile
    else if p = "proj/.git" then .ok .rdir
    else if p = "proj/.git/config" then .ok .rfile
    else if p = "proj/sub" then .ok .rdir
    else if p = "proj/sub/c.txt" then .ok .rfile
    else .notExist
  lstat := fun p =>
    if p = "proj" then some .directory
    else if p = "proj/a.txt" then some .regular
    else if p = "proj/b.txt" then some .regular
    else if p = "proj/.git" then some .directory
    else if p = "proj/.git/config" then some .regular
    else if p = "proj/sub" then some .directory
    else if p = "proj/sub/c.txt" then some .regular
    else none
  readDir := fun p =>
    if p = "proj" then
      some [(".git", .directory), ("a.txt", .regular), ("b.txt", .regular), ("sub", .directory)]
    else if p = "proj/.git" then some [("config", .regular)]
    else if p = "proj/sub" then some [("c.txt", .regular)]
    else none

/-- A filesystem where stat-ing `"locked"` fails with a non-not-exist
error (e.g. permission denied on a parent), and `"ghost"` does not
exist but has a prefix-matching sibling `"ghostly.txt"`. -/
def efs : FSys where
  stat := fun p =>
    if p = "locked" then .otherError
    else if p = "ghostly.txt" then .ok .rfile
    else .notExist
  lstat := fun p => if p = "ghostly.txt" then some .regular else none
  readDir := fun p => if p = "." then some [("ghostly.txt", FType.regular)] else none

/-- A filesystem where `"sock"` names an existing socket (stat succeeds
with a non-regular, non-directory type) with a prefix-matching sibling
`"sock.log"`. -/
def sfs : FSys where
  stat := fun p =>
    if p = "sock" then .ok .rother
    else if p = "sock.log" then .ok .rfile
    else .notExist
  lstat := fun p =>
    if p = "sock" then some .special
    else if p = "sock.log" then some .regular
    else none
  readDir := fun p =>
    if p = "." then some [("sock", FType.special), ("sock.log", FType.regular)] else none

/-- A near-empty filesystem: only the current directory exists and is
empty. -/
def tfs : FSys where
  stat := fun p => if p = "." then .ok .rdir else .notExist
  lstat := fun p => if p = "." then some .directory else none
  readDir := fun p => if p = "." then some [] else none

/-- A tree with an unreadable subdirectory `r/bad` next to readable
entries, and a hidden file `r/.env` inside the visible directory `r`. -/
def rfs : FSys where
  stat := fun p =>
    if p = "r" then .ok .rdir
    else if p = "r/bad" then .ok .rdir
    else if p = "r/ok.txt" then .ok .rfile
    else if p = "r/.env" then .ok .rfile
    else .notExist
  lstat := fun p =>
    if p = "r" then some .directory
    else if p = "r/bad" then some .directory
    else if p = "r/ok.txt" then some .regular
    else if p = "r/.env" then some .regular
    else none
  readDir := fun p =>
    if p = "r" then
      some [(".env", .regular), ("bad", .directory), ("ok.txt", .regular)]
    else none

/-! ## Helper lemmas -/

theorem listHasPfx_iff : ∀ pre s : List Char, listHasPfx pre s = true ↔ ∃ r, s = pre ++ r := by
  intro pre
  induction pre with
  | nil => intro s; simp [listHasPfx]
  | cons p ps ih =>
    intro s
    cases s with
    | nil => simp [listHasPfx]
    | cons c cs =>
      simp only [listHasPfx, Bool.and_eq_true, decide_eq_true_eq, ih cs, List.cons_append,
        List.cons.injEq]
      constructor
      · rintro ⟨hpc, r, hr⟩; exact ⟨r, hpc.symm, hr⟩
      · rintro ⟨r, hcp, hr⟩; exact ⟨hcp.symm, r, hr⟩

theorem hasPfx_iff {s pre : String} : hasPfx s pre = true ↔ ∃ r, s.data = pre.data ++ r :=
  listHasPfx_iff pre.data s.data

/-! ## C7: tilde expansion -/

/-- C7: `expandTilde` maps the exact pattern `"~"` to the home
directory, maps every pattern starting with `"~/"` to the home
directory concatenated with the remainder (string concatenation, so any
trailing slash is preserved), returns every other pattern unchanged
without failing, and fails with the home-directory-unavailable error
exactly when the pattern is `"~"` or starts with `"~/"` and the home
directory cannot be determined. -/
theorem expandTilde_spec (home : Option String) (p : String) :
    (p = "~" → expandTilde home p =
      (match home with
       | some h => .ok h
       | none => .error .homeDirectoryUnavailable)) ∧
    (hasPfx p "~/" = true → expandTilde home p =
      (match home with
       | some h => .ok (h ++ strTail p)
       | none => .error .homeDirectoryUnavailable)) ∧
    (p ≠ "~" → hasPfx p "~/" = false → expandTilde home p = .ok p) := by
  refine ⟨?_, ?_, ?_⟩
  · rintro rfl
    cases home with
    | none => simp [expandTilde]
    | some h =>
      simp only [expandTilde]
      norm_num
      intro hlen
      exact absurd hlen (by decide)
  · intro hpfx
    obtain ⟨r, hr⟩ := hasPfx_iff.mp hpfx
    have hlen : p.length > 1 := by
      show p.data.length > 1
      rw [hr]; simp
    cases home with
    | none => simp [expandTilde, hpfx]
    | some h => simp [expandTilde, hpfx, hlen]
  · intro hne hpfx
    simp [expandTilde, hne, hpfx]

theorem expandTilde_spec_witness :
    expandTilde (some "/home/u") "~" = .ok "/home/u" ∧
    expandTilde (some "/home/u") "~/.config/" = .ok "/home/u/.config/" ∧
    expandTilde none "~/x" = .error .homeDirectoryUnavailable ∧
    expandTilde (some "/home/u") "docs" = .ok "docs" :=
  ⟨(expandTilde_spec (some "/home/u") "~").1 rfl,
   (expandTilde_spec (some "/home/u") "~/.config/").2.1 (by decide),
   (expandTilde_spec none "~/x").2.1 (by decide),
   (expandTilde_spec (some "/home/u") "docs").2.2 (by decide) (by decide)⟩

/-! ## C3: existing-directory precedence -/

/-- C3: for an argument that tilde-expands to a string with no glob
metacharacter and no trailing separator, and whose cleaned form stats to
an existing directory, `Expand` returns exactly the recursive walk of
that directory — the prefix-match branch (`expandPfx`) is never taken on
this route. -/
theorem expand_existing_dir_walks (fs : FSys) (home : Option String) (fuel : Nat)
    (pattern expanded : String)
    (htilde : expandTilde home pattern = .ok expanded)
    (hmeta : containsMeta expanded = false)
    (hslash : hasSfx expanded '/' = false)
    (hstat : fs.stat (filepathClean expanded) = .ok .rdir) :
    Expand fs home fuel pattern = .ok (WalkCollect fs fuel (filepathClean expanded)) := by
  unfold Expand
  rw [htilde]
  simp [hmeta, hslash, hstat]

theorem expand_existing_dir_walks_witness :
    Expand pfs none 10 "proj" = .ok (WalkCollect pfs 10 "proj") ∧
    WalkCollect pfs 10 "proj" = ["proj/a.txt", "proj/b.txt", "proj/sub/c.txt"] :=
  ⟨expand_existing_dir_walks pfs none 10 "proj" "proj" rfl rfl rfl rfl, rfl⟩

/-! ## C4: stat-failure handling (amended) -/

/-- C4 (amended): for a metacharacter-free, non-trailing-slash argument,
a stat failure other than non-existence surfaces as a `statFailed` error
and does not fall through to prefix matching; a does-not-exist stat
result falls through to the prefix-match step; and additionally a
successful stat of an entry that is neither a directory nor a regular
file (e.g. a socket) also falls through to the prefix-match step. -/
theorem expand_stat_outcome (fs : FSys) (home : Option String) (fuel : Nat)
    (pattern expanded : String)
    (htilde : expandTilde home pattern = .ok expanded)
    (hmeta : containsMeta expanded = false)
    (hslash : hasSfx expanded '/' = false) :
    (fs.stat (filepathClean expanded) = .otherError →
      Expand fs home fuel pattern = .error (.statFailed (filepathClean expanded))) ∧
    (fs.stat (filepathClean expanded) = .notExist →
      Expand fs home fuel pattern = expandPfx fs fuel (filepathClean expanded)) ∧
    (∀ t, fs.stat (filepathClean expanded) = .ok t → t ≠ .rdir → t ≠ .rfile →
      Expand fs home fuel pattern = expandPfx fs fuel (filepathClean expanded)) := by
  refine ⟨?_, ?_, ?_⟩
  · intro hstat
    unfold Expand
    rw [htilde]
    simp [hmeta, hslash, hstat]
  · intro hstat
    unfold Expand
    rw [htilde]
    simp [hmeta, hslash, hstat]
  · intro t hstat h1 h2
    unfold Expand
    rw [htilde]
    simp [hmeta, hslash, hstat, h1, h2]

theorem expand_stat_outcome_witness :
    Expand efs none 1 "locked" = .error (.statFailed "locked") ∧
    Expand efs none 1 "ghost" = expandPfx efs 1 "ghost" ∧
    expandPfx efs 1 "ghost" = .ok ["ghostly.txt"] :=
  ⟨(expand_stat_outcome efs none 1 "locked" "locked" rfl rfl rfl).1 rfl,
   (expand_stat_outcome efs none 1 "ghost" "ghost" rfl rfl rfl).2.1 rfl,
   rfl⟩

/-- C4 counterexample: an argument naming an existing socket has a stat
result that is neither a failure nor does-not-exist, yet resolution
falls through to the prefix-match step (returning the prefix-matching
sibling) instead of being confined to the claimed
"only a does-not-exist stat result leads to the prefix-match step". -/
theorem expand_special_falls_through :
    sfs.stat "sock" = .ok .rother ∧
    sfs.stat "sock" ≠ .notExist ∧
    Expand sfs none 1 "sock" = expandPfx sfs 1 "sock" ∧
    Expand sfs none 1 "sock" = .ok ["sock.log"] :=
  ⟨rfl, by decide, rfl, rfl⟩

/-! ## Walker lemmas -/

theorem catPairs_cons (x : List String × List String) (xs : List (List String × List String)) :
    catPairs (x :: xs) = (x.1 ++ (catPairs xs).1, x.2 ++ (catPairs xs).2) := rfl

theorem catPairs_append (l₁ l₂ : List (List String × List String)) :
    catPairs (l₁ ++ l₂) =
      ((catPairs l₁).1 ++ (catPairs l₂).1, (catPairs l₁).2 ++ (catPairs l₂).2) := by
  induction l₁ with
  | nil => simp [catPairs]
  | cons x xs ih => simp [catPairs, ih]

theorem mem_catPairs_fst {q : String} : ∀ l : List (List String × List String),
    q ∈ (catPairs l).1 ↔ ∃ x ∈ l, q ∈ x.1 := by
  intro l
  induction l with
  | nil => simp [catPairs]
  | cons x xs ih => simp [catPairs, ih]

theorem walkEntries_append (fs : FSys) (fuel : Nat) (root path : String)
    (es₁ es₂ : List (String × FType)) :
    walkEntries fs fuel root path (es₁ ++ es₂) =
      ((walkEntries fs fuel root path es₁).1 ++ (walkEntries fs fuel root path es₂).1,
       (walkEntries fs fuel root path es₁).2 ++ (walkEntries fs fuel root path es₂).2) := by
  unfold walkEntries
  rw [List.map_append, catPairs_append]

theorem visit_succ (fs : FSys) (fuel : Nat) (root path name : String)
    (entries : List (String × FType))
    (hskip : ¬(path ≠ root && hasPfx name ".") = true)
    (hrd : fs.readDir path = some entries) :
    visit fs (fuel + 1) root path name .directory = walkEntries fs fuel root path entries := by
  show visitCore fs (visit fs fuel) root path name .directory = _
  unfold visitCore
  rw [if_neg hskip, hrd]
  rfl

/-! ## C5: hidden-directory pruning, root always descended -/

/-- C5: (a) a directory entry whose name begins with `'.'` and whose
path is not the walk's root is pruned outright — its subtree is never
visited and it contributes nothing to the results; (b) the root of a
walk is always descended into (its entries visited), regardless of the
root's own base name, hidden or not. -/
theorem walk_hidden_pruned_root_descended (fs : FSys) (fuel : Nat)
    (root path name : String) (entries : List (String × FType)) :
    (path ≠ root → hasPfx name "." = true →
      visit fs fuel root path name .directory = ([], [])) ∧
    (fs.lstat root = some .directory → fs.readDir root = some entries →
      walkFiltered fs (fuel + 1) root = walkEntries fs fuel root root entries) := by
  constructor
  · intro hne hh
    cases fuel with
    | zero =>
      show visitCore fs _ root path name .directory = _
      unfold visitCore
      rw [if_pos (by simp [hne, hh])]
    | succ fuel =>
      show visitCore fs _ root path name .directory = _
      unfold visitCore
      rw [if_pos (by simp [hne, hh])]
  · intro hl hrd
    unfold walkFiltered
    rw [hl]
    exact visit_succ fs fuel root root (filepathBase root) entries (by simp) hrd

theorem walk_hidden_pruned_root_descended_witness :
    visit pfs 5 "proj" "proj/.git" ".git" .directory = ([], []) ∧
    walkFiltered pfs 1 "proj/.git" =
      walkEntries pfs 0 "proj/.git" "proj/.git" [("config", FType.regular)] ∧
    WalkCollect pfs 1 "proj/.git" = ["proj/.git/config"] :=
  ⟨(walk_hidden_pruned_root_descended pfs 5 "proj" "proj/.git" ".git" []).1 (by decide) rfl,
   (walk_hidden_pruned_root_descended pfs 0 "proj/.git" "" "" [("config", FType.regular)]).2
     rfl rfl,
   rfl⟩

/-! ## C9: per-entry traversal errors are non-fatal -/

/-- C9: a directory entry whose listing fails (`ReadDir` error, e.g.
permission denied) does not abort the traversal: the walk of an entry
list containing such an entry still produces exactly the emissions of
the remaining entries, with the failing path reported out-of-band (the
second component, the stderr reports) rather than surfaced as an error
— the walk result type carries no error at all, mirroring the Go
callback that logs and returns nil. -/
theorem walk_readdir_error_nonfatal (fs : FSys) (fuel : Nat) (root path n : String)
    (es₁ es₂ : List (String × FType))
    (hn : hasPfx n "." = false)
    (hrd : fs.readDir (filepathJoin path n) = none) :
    walkEntries fs fuel root path (es₁ ++ (n, FType.directory) :: es₂) =
      ((walkEntries fs fuel root path es₁).1 ++ (walkEntries fs fuel root path es₂).1,
       (walkEntries fs fuel root path es₁).2 ++
         filepathJoin path n :: (walkEntries fs fuel root path es₂).2) := by
  rw [walkEntries_append]
  have hmid : visit fs fuel root (filepathJoin path n) n .directory =
      ([], [filepathJoin path n]) := by
    cases fuel with
    | zero =>
      show visitCore fs _ root _ n .directory = _
      unfold visitCore
      rw [if_neg (by simp [hn]), hrd]
    | succ fuel =>
      show visitCore fs _ root _ n .directory = _
      unfold visitCore
      rw [if_neg (by simp [hn]), hrd]
  have hcons : walkEntries fs fuel root path ((n, FType.directory) :: es₂) =
      ([] ++ (walkEntries fs fuel root path es₂).1,
       filepathJoin path n :: (walkEntries fs fuel root path es₂).2) := by
    unfold walkEntries
    rw [List.map_cons, catPairs_cons]
    simp only [hmid]
    rfl
  rw [hcons]
  simp

theorem walk_readdir_error_nonfatal_witness :
    walkEntries rfs 1 "r" "r"
        ([(".env", FType.regular)] ++ (("bad", FType.directory) :: [("ok.txt", FType.regular)])) =
      ((walkEntries rfs 1 "r" "r" [(".env", FType.regular)]).1 ++
        (walkEntries rfs 1 "r" "r" [("ok.txt", FType.regular)]).1,
       (walkEntries rfs 1 "r" "r" [(".env", FType.regular)]).2 ++
        "r/bad" :: (walkEntries rfs 1 "r" "r" [("ok.txt", FType.regular)]).2) ∧
    WalkCollect rfs 2 "r" = ["r/.env", "r/ok.txt"] ∧
    walkReported rfs 2 "r" = ["r/bad"] :=
  ⟨walk_readdir_error_nonfatal rfs 1 "r" "r" "bad"
      [(".env", FType.regular)] [("ok.txt", FType.regular)] rfl rfl,
   rfl, rfl⟩

/-! ## C10: hidden files inside visible directories are emitted -/

/-- C10: the hidden-name pruning test applies only to directory
entries: a non-directory entry whose name begins with `'.'`, sitting in
a visited entry list, goes through the includability filter and — being
a regular file — is emitted in place, between its siblings' results. -/
theorem walk_hidden_file_included (fs : FSys) (fuel : Nat) (root path n : String)
    (es₁ es₂ : List (String × FType))
    (_hn : hasPfx n "." = true) :
    walkEntries fs fuel root path (es₁ ++ (n, FType.regular) :: es₂) =
      ((walkEntries fs fuel root path es₁).1 ++
        filepathJoin path n :: (walkEntries fs fuel root path es₂).1,
       (walkEntries fs fuel root path es₁).2 ++ (walkEntries fs fuel root path es₂).2) := by
  rw [walkEntries_append]
  have hmid : visit fs fuel root (filepathJoin path n) n .regular =
      ([filepathJoin path n], []) := by
    cases fuel <;> rfl
  have hcons : walkEntries fs fuel root path ((n, FType.regular) :: es₂) =
      (filepathJoin path n :: (walkEntries fs fuel root path es₂).1,
       [] ++ (walkEntries fs fuel root path es₂).2) := by
    unfold walkEntries
    rw [List.map_cons, catPairs_cons]
    simp only [hmid]
    rfl
  rw [hcons]
  simp

theorem walk_hidden_file_included_witness :
    walkEntries rfs 1 "r" "r"
        ([] ++ ((".env", FType.regular) :: [("bad", FType.directory), ("ok.txt", FType.regular)])) =
      ((walkEntries rfs 1 "r" "r" []).1 ++
        "r/.env" :: (walkEntries rfs 1 "r" "r" [("bad", FType.directory), ("ok.txt", FType.regular)]).1,
       (walkEntries rfs 1 "r" "r" []).2 ++
        (walkEntries rfs 1 "r" "r" [("bad", FType.directory), ("ok.txt", FType.regular)]).2) ∧
    "r/.env" ∈ WalkCollect rfs 2 "r" :=
  ⟨walk_hidden_file_included rfs 1 "r" "r" ".env" []
      [("bad", FType.directory), ("ok.txt", FType.regular)] rfl,
   by decide⟩

/-! ## C6: one-level listing -/

/-- C6: a successful `ListDir fs dir` returns exactly the includable
entries (those accepted by `IsIncludableFile`: regular files and
symlinks resolving to regular files) among the direct children of
`dir`: a path is in the result iff it is `dir` joined with the name of
some directory entry that passes the filter.  No hidden-name condition
appears, so hidden direct children are included, and every result is
the join of `dir` with a single entry name — never a path from inside a
subdirectory. -/
theorem listDir_exact (fs : FSys) (dir : String) (entries : List (String × FType))
    (res : List String)
    (hrd : fs.readDir dir = some entries)
    (h : ListDir fs dir = .ok res) :
    ∀ q, q ∈ res ↔ ∃ e ∈ entries,
      q = filepathJoin dir e.1 ∧ IsIncludableFile fs (filepathJoin dir e.1) e.2 = true := by
  unfold ListDir at h
  rw [hrd] at h
  injection h with h
  subst h
  intro q
  rw [List.mem_filterMap]
  constructor
  · rintro ⟨e, he, hq⟩
    by_cases hi : IsIncludableFile fs (filepathJoin dir e.1) e.2 = true
    · rw [if_pos hi] at hq
      injection hq with hq
      exact ⟨e, he, hq.symm, hi⟩
    · rw [if_neg hi] at hq
      cases hq
  · rintro ⟨e, he, rfl, hi⟩
    exact ⟨e, he, by rw [if_pos hi]⟩

theorem listDir_exact_witness :
    (∀ q, q ∈ ["proj/a.txt", "proj/b.txt"] ↔ ∃ e ∈
        [(".git", FType.directory), ("a.txt", FType.regular),
         ("b.txt", FType.regular), ("sub", FType.directory)],
      q = filepathJoin "proj" e.1 ∧
        IsIncludableFile pfs (filepathJoin "proj" e.1) e.2 = true) ∧
    ListDir pfs "proj" = .ok ["proj/a.txt", "proj/b.txt"] :=
  ⟨listDir_exact pfs "proj"
      [(".git", FType.directory), ("a.txt", FType.regular),
       ("b.txt", FType.regular), ("sub", FType.directory)]
      ["proj/a.txt", "proj/b.txt"] rfl rfl,
   rfl⟩

/-! ## C2: hidden entries in glob expansion -/

theorem compMatchHidden_no_hidden (p n : String)
    (hp : hasPfx p "." = false) (h : compMatchHidden p n = true) :
    hasPfx n "." = false := by
  unfold compMatchHidden at h
  by_cases hn : hasPfx n "." = true
  · rw [hn, hp] at h
    simp at h
  · simpa using hn

theorem tryStarStar_no_hidden (f : List String → Bool)
    (hf : ∀ ms, f ms = true → ∀ n ∈ ms, hasPfx n "." = false) :
    ∀ ns, tryStarStar f ns = true → ∀ n ∈ ns, hasPfx n "." = false := by
  intro ns
  induction ns with
  | nil => simp
  | cons n ns ih =>
    intro h m hm
    rw [tryStarStar, Bool.or_eq_true] at h
    rcases h with h | h
    · exact hf _ h m hm
    · rw [Bool.and_eq_true] at h
      rcases List.mem_cons.mp hm with rfl | hm'
      · simpa using h.1
      · exact ih h.2 m hm'

theorem globMatch_starstar (ps ns : List String) :
    globMatch ("**" :: ps) ns = tryStarStar (globMatch ps) ns := by
  simp [globMatch]

theorem globMatch_cons_ne (p n : String) (ps ns' : List String) (hps : p ≠ "**") :
    globMatch (p :: ps) (n :: ns') = (compMatchHidden p n && globMatch ps ns') := by
  simp [globMatch, hps]

theorem globMatch_no_hidden : ∀ ps ns, (∀ p ∈ ps, hasPfx p "." = false) →
    globMatch ps ns = true → ∀ n ∈ ns, hasPfx n "." = false := by
  intro ps
  induction ps with
  | nil =>
    intro ns _ hg n hn
    cases ns with
    | nil => cases hn
    | cons m ms => simp [globMatch] at hg
  | cons p ps ih =>
    intro ns hp hg
    by_cases hps : p = "**"
    · subst hps
      rw [globMatch_starstar] at hg
      exact tryStarStar_no_hidden (globMatch ps)
        (fun ms h => ih ms (fun x hx => hp x (List.mem_cons_of_mem _ hx)) h) ns hg
    · cases ns with
      | nil => intro m hm; cases hm
      | cons n ns' =>
        rw [globMatch_cons_ne p n ps ns' hps, Bool.and_eq_true] at hg
        intro m hm
        rcases List.mem_cons.mp hm with rfl | hm'
        · exact compMatchHidden_no_hidden p m (hp p (List.mem_cons_self p ps)) hg.1
        · exact ih ns' (fun x hx => hp x (List.mem_cons_of_mem _ hx)) hg.2 m hm'

/-- C2: in glob expansion, a filesystem entry one of whose matched path
components begins with `'.'` (in particular, one whose matched name
does) never appears among the matches unless the glob expression
explicitly targets a name starting with `'.'` — i.e. when no component
of the glob expression starts with `'.'`, no component of any match
does. -/
theorem glob_hidden_requires_explicit_dot (fs : FSys) (fuel : Nat)
    (base globPart m : String)
    (hp : ∀ pc ∈ splitSlash globPart, hasPfx pc "." = false)
    (hm : m ∈ doublestarMatches fs fuel base globPart) :
    ∀ nc ∈ splitSlash m, hasPfx nc "." = false :=
  globMatch_no_hidden (splitSlash globPart) (splitSlash m) hp
    (List.mem_filter.mp hm).2

theorem glob_hidden_requires_explicit_dot_witness :
    (∀ nc ∈ splitSlash "a.txt", hasPfx nc "." = false) ∧
    doublestarMatches pfs 3 "proj" "*" = ["a.txt", "b.txt", "sub"] ∧
    doublestarMatches pfs 3 "proj" ".*" = [".git"] :=
  ⟨glob_hidden_requires_explicit_dot pfs 3 "proj" "*" "a.txt" (by decide) (by decide),
   rfl, rfl⟩

/-! ## C1: the regular-file invariant -/

theorem incl_stat (fs : FSys) (hwf : fs.WF) (p : String) (t : FType)
    (hl : fs.lstat p = some t) (hi : IsIncludableFile fs p t = true) :
    fs.stat p = .ok .rfile := by
  cases t with
  | regular => exact hwf.1 p hl
  | symlink =>
    unfold IsIncludableFile at hi
    cases h : fs.stat p with
    | ok r =>
      cases r with
      | rfile => rfl
      | rdir => rw [h] at hi; cases hi
      | rother => rw [h] at hi; cases hi
    | notExist => rw [h] at hi; cases hi
    | otherError => rw [h] at hi; cases hi
  | directory => cases hi
  | special => cases hi

theorem visitCore_stat (fs : FSys) (hwf : fs.WF)
    (rec : String → String → String → FType → List String × List String)
    (hrec : ∀ root path name t q, fs.lstat path = some t →
      q ∈ (rec root path name t).1 → fs.stat q = .ok .rfile)
    (root path name : String) (t : FType) (q : String)
    (hl : fs.lstat path = some t) (hq : q ∈ (visitCore fs rec root path name t).1) :
    fs.stat q = .ok .rfile := by
  cases t with
  | directory =>
    replace hq : q ∈ (if (path ≠ root && hasPfx name ".") = true then
        (([], []) : List String × List String)
      else
        match fs.readDir path with
        | none => ([], [path])
        | some entries =>
          catPairs (entries.map fun e => rec root (filepathJoin path e.1) e.1 e.2)).1 := hq
    by_cases hskip : (path ≠ root && hasPfx name ".") = true
    · rw [if_pos hskip] at hq
      cases hq
    · rw [if_neg hskip] at hq
      cases hrd : fs.readDir path with
      | none =>
        rw [hrd] at hq
        replace hq : q ∈ ([] : List String) := hq
        cases hq
      | some entries =>
        rw [hrd] at hq
        replace hq : q ∈
            (catPairs (entries.map fun e => rec root (filepathJoin path e.1) e.1 e.2)).1 := hq
        rw [mem_catPairs_fst] at hq
        obtain ⟨x, hx, hqx⟩ := hq
        obtain ⟨e, he, rfl⟩ := List.mem_map.mp hx
        exact hrec root (filepathJoin path e.1) e.1 e.2 q
          (hwf.2 path entries e.1 e.2 hrd (by simpa using he)) hqx
  | regular =>
    replace hq : q ∈ [path] := hq
    rcases List.mem_singleton.mp hq with rfl
    exact hwf.1 _ hl
  | symlink =>
    replace hq : q ∈ (if IsIncludableFile fs path FType.symlink = true then [path]
      else ([] : List String)) := hq
    by_cases hi : IsIncludableFile fs path FType.symlink = true
    · rw [if_pos hi] at hq
      rcases List.mem_singleton.mp hq with rfl
      exact incl_stat fs hwf q .symlink hl hi
    · rw [if_neg hi] at hq
      cases hq
  | special =>
    replace hq : q ∈ ([] : List String) := hq
    cases hq

theorem visit_stat (fs : FSys) (hwf : fs.WF) :
    ∀ (fuel : Nat) (root path name : String) (t : FType) (q : String),
      fs.lstat path = some t → q ∈ (visit fs fuel root path name t).1 →
      fs.stat q = .ok .rfile := by
  intro fuel
  induction fuel with
  | zero =>
    intro root path name t q hl hq
    exact visitCore_stat fs hwf _ (by intro _ _ _ _ _ _ h; cases h) root path name t q hl hq
  | succ fuel ih =>
    intro root path name t q hl hq
    exact visitCore_stat fs hwf _ ih root path name t q hl hq

theorem walkCollect_stat (fs : FSys) (hwf : fs.WF) (fuel : Nat) (root q : String)
    (hq : q ∈ WalkCollect fs fuel root) : fs.stat q = .ok .rfile := by
  unfold WalkCollect walkFiltered at hq
  cases hl : fs.lstat root with
  | none => rw [hl] at hq; cases hq
  | some t =>
    rw [hl] at hq
    exact visit_stat fs hwf fuel root root (filepathBase root) t q hl hq

theorem listDir_stat (fs : FSys) (hwf : fs.WF) (dir : String) (res : List String)
    (h : ListDir fs dir = .ok res) (q : String) (hq : q ∈ res) :
    fs.stat q = .ok .rfile := by
  unfold ListDir at h
  cases hrd : fs.readDir dir with
  | none => rw [hrd] at h; cases h
  | some entries =>
    rw [hrd] at h
    injection h with h
    subst h
    obtain ⟨e, he, hfe⟩ := List.mem_filterMap.mp hq
    by_cases hi : IsIncludableFile fs (filepathJoin dir e.1) e.2 = true
    · rw [if_pos hi] at hfe
      injection hfe with hfe
      subst hfe
      exact incl_stat fs hwf _ e.2 (hwf.2 dir entries e.1 e.2 hrd (by simpa using he)) hi
    · rw [if_neg hi] at hfe
      cases hfe

theorem expandGlob_stat (fs : FSys) (hwf : fs.WF) (fuel : Nat) (pattern : String)
    (res : List String) (h : expandGlob fs fuel pattern = .ok res)
    (q : String) (hq : q ∈ res) : fs.stat q = .ok .rfile := by
  unfold expandGlob at h
  injection h with h
  subst h
  obtain ⟨m, _, hfm⟩ := List.mem_filterMap.mp hq
  replace hfm : (match fs.lstat (filepathJoin (splitPattern pattern).1 m) with
    | none => none
    | some t =>
      if IsIncludableFile fs (filepathJoin (splitPattern pattern).1 m) t = true then
        some (filepathJoin (splitPattern pattern).1 m)
      else none) = some q := hfm
  cases hl : fs.lstat (filepathJoin (splitPattern pattern).1 m) with
  | none => rw [hl] at hfm; cases hfm
  | some t =>
    rw [hl] at hfm
    replace hfm : (if IsIncludableFile fs (filepathJoin (splitPattern pattern).1 m) t = true then
      some (filepathJoin (splitPattern pattern).1 m) else none) = some q := hfm
    by_cases hi : IsIncludableFile fs (filepathJoin (splitPattern pattern).1 m) t = true
    · rw [if_pos hi] at hfm
      injection hfm with hfm
      subst hfm
      exact incl_stat fs hwf _ t hl hi
    · rw [if_neg hi] at hfm
      cases hfm

theorem expandPfx_stat (fs : FSys) (hwf : fs.WF) (fuel : Nat) (path : String)
    (res : List String) (h : expandPfx fs fuel path = .ok res)
    (q : String) (hq : q ∈ res) : fs.stat q = .ok .rfile := by
  unfold expandPfx at h
  replace h : (match fs.readDir (filepathDir path) with
    | none => Except.error (ExpandError.directoryUnreadable (filepathDir path))
    | some entries =>
      Except.ok ((entries.map fun e =>
        if (!hasPfx e.1 (filepathBase path)) = true then []
        else if e.2 = FType.symlink then
          match fs.stat (filepathJoin (filepathDir path) e.1) with
          | StatResult.ok r =>
            if r = RType.rdir then WalkCollect fs fuel (filepathJoin (filepathDir path) e.1)
            else if IsIncludableFile fs (filepathJoin (filepathDir path) e.1) e.2 = true then
              [filepathJoin (filepathDir path) e.1]
            else []
          | _ => []
        else if e.2 = FType.directory then
          WalkCollect fs fuel (filepathJoin (filepathDir path) e.1)
        else if IsIncludableFile fs (filepathJoin (filepathDir path) e.1) e.2 = true then
          [filepathJoin (filepathDir path) e.1]
        else []).flatten)) = Except.ok res := h
  cases hrd : fs.readDir (filepathDir path) with
  | none => rw [hrd] at h; cases h
  | some entries =>
    rw [hrd] at h
    injection h with h
    subst h
    rw [List.mem_flatten] at hq
    obtain ⟨l, hl, hql⟩ := hq
    obtain ⟨e, he, rfl⟩ := List.mem_map.mp hl
    have hlst : fs.lstat (filepathJoin (filepathDir path) e.1) = some e.2 :=
      hwf.2 (filepathDir path) entries e.1 e.2 hrd (by simpa using he)
    split at hql
    · cases hql
    · split at hql
      · -- symlink entry: branch on the stat of the resolved target
        split at hql
        · split at hql
          · exact walkCollect_stat fs hwf fuel _ q hql
          · split at hql
            · next hi =>
              rcases List.mem_singleton.mp hql with rfl
              exact incl_stat fs hwf _ e.2 hlst hi
            · cases hql
        · cases hql
      · split at hql
        · exact walkCollect_stat fs hwf fuel _ q hql
        · split at hql
          · next hi =>
            rcases List.mem_singleton.mp hql with rfl
            exact incl_stat fs hwf _ e.2 hlst hi
          · cases hql

/-- C1: every path returned by any resolution route of `Expand`
(glob expansion, one-level listing, recursive walk, exact-file match, or
prefix matching) stats, on the same filesystem snapshot, to a regular
file — i.e. it is an existing regular file or a symlink resolving to
one; directories, sockets, devices, FIFOs and dangling symlinks (whose
stat is `rdir`, `rother` or an error) never appear in a result. -/
theorem expand_only_regular_files (fs : FSys) (home : Option String) (fuel : Nat)
    (pattern : String) (res : List String) (hwf : fs.WF)
    (h : Expand fs home fuel pattern = .ok res) :
    ∀ q ∈ res, fs.stat q = .ok .rfile := by
  intro q hq
  unfold Expand at h
  cases ht : expandTilde home pattern with
  | error e => rw [ht] at h; cases h
  | ok expanded =>
    rw [ht] at h
    replace h : (if containsMeta expanded = true then expandGlob fs fuel expanded
      else if hasSfx expanded '/' = true then ListDir fs (filepathClean expanded)
      else
        match fs.stat (filepathClean expanded) with
        | StatResult.ok t =>
          if t = RType.rdir then Except.ok (WalkCollect fs fuel (filepathClean expanded))
          else if t = RType.rfile then Except.ok [filepathClean expanded]
          else expandPfx fs fuel (filepathClean expanded)
        | StatResult.notExist => expandPfx fs fuel (filepathClean expanded)
        | StatResult.otherError =>
          Except.error (ExpandError.statFailed (filepathClean expanded))) = Except.ok res := h
    by_cases hm : containsMeta expanded = true
    · rw [if_pos hm] at h
      exact expandGlob_stat fs hwf fuel expanded res h q hq
    · rw [if_neg hm] at h
      by_cases hts : hasSfx expanded '/' = true
      · rw [if_pos hts] at h
        exact listDir_stat fs hwf (filepathClean expanded) res h q hq
      · rw [if_neg hts] at h
        cases hstat : fs.stat (filepathClean expanded) with
        | ok t =>
          rw [hstat] at h
          replace h : (if t = RType.rdir then
              Except.ok (WalkCollect fs fuel (filepathClean expanded))
            else if t = RType.rfile then Except.ok [filepathClean expanded]
            else expandPfx fs fuel (filepathClean expanded)) = Except.ok res := h
          by_cases hd : t = RType.rdir
          · rw [if_pos hd] at h
            injection h with h
            subst h
            exact walkCollect_stat fs hwf fuel _ q hq
          · rw [if_neg hd] at h
            by_cases hf : t = RType.rfile
            · rw [if_pos hf] at h
              injection h with h
              subst h
              rcases List.mem_singleton.mp hq with rfl
              rw [hstat, hf]
            · rw [if_neg hf] at h
              exact expandPfx_stat fs hwf fuel _ res h q hq
        | notExist =>
          rw [hstat] at h
          replace h : expandPfx fs fuel (filepathClean expanded) = Except.ok res := h
          exact expandPfx_stat fs hwf fuel _ res h q hq
        | otherError =>
          rw [hstat] at h
          replace h : (Except.error (ExpandError.statFailed (filepathClean expanded)) :
            Except ExpandError (List String)) = Except.ok res := h
          cases h

theorem expand_only_regular_files_witness :
    Expand tfs none 2 "." = .ok [] ∧
    (∀ q ∈ ([] : List String), tfs.stat q = .ok .rfile) :=
  ⟨rfl,
   expand_only_regular_files tfs none 2 "." []
     ⟨fun p hp => by by_cases h : p = "." <;> simp [tfs, h] at hp ⊢,
      fun d es n t hd hmem => by
        by_cases h : d = "." <;> simp [tfs, h] at hd
        subst hd
        cases hmem⟩
     rfl⟩

/-! ## C8: base split of a metacharacter-free pattern -/

theorem splitSlashAux_ne_nil : ∀ (cs acc : List Char), splitSlashAux cs acc ≠ [] := by
  intro cs
  induction cs with
  | nil => intro acc; simp [splitSlashAux]
  | cons c cs ih =>
    intro acc
    by_cases hc : c = '/'
    · simp [splitSlashAux, hc]
    · simp only [splitSlashAux, if_neg hc]
      exact ih _

theorem splitSlash_ne_nil (s : String) : splitSlash s ≠ [] :=
  splitSlashAux_ne_nil s.data []

theorem splitSlashAux_chars : ∀ (cs acc : List Char) (e : String),
    e ∈ splitSlashAux cs acc → ∀ c ∈ e.data, c ∈ acc ∨ c ∈ cs := by
  intro cs
  induction cs with
  | nil =>
    intro acc e he c hc
    simp [splitSlashAux] at he
    subst he
    left
    simpa using hc
  | cons c0 cs ih =>
    intro acc e he c hc
    by_cases hc0 : c0 = '/'
    · rw [splitSlashAux, if_pos hc0] at he
      rcases List.mem_cons.mp he with rfl | he'
      · left; simpa using hc
      · rcases ih [] e he' c hc with h' | h'
        · cases h'
        · right; exact List.mem_cons_of_mem _ h'
    · rw [splitSlashAux, if_neg hc0] at he
      rcases ih (c0 :: acc) e he c hc with h' | h'
      · rcases List.mem_cons.mp h' with rfl | h''
        · right; exact List.mem_cons_self _ _
        · left; exact h''
      · right; exact List.mem_cons_of_mem _ h'

theorem containsMeta_parts (s : String) (h : containsMeta s = false) :
    ∀ e ∈ splitSlash s, containsMeta e = false := by
  intro e he
  rw [containsMeta, List.any_eq_false] at h ⊢
  intro c hc
  rcases splitSlashAux_chars s.data [] e he c hc with h' | h'
  · cases h'
  · exact h c h'

theorem scanMeta_all_clean : ∀ (l : List String) (i : Nat),
    (∀ x ∈ l, containsMeta x = false) → scanMeta l i = i + l.length := by
  intro l
  induction l with
  | nil => intro i _; simp [scanMeta]
  | cons x xs ih =>
    intro i hx
    rw [scanMeta, hx x (List.mem_cons_self x xs)]
    rw [if_neg (by simp), ih (i + 1) fun y hy => hx y (List.mem_cons_of_mem _ hy)]
    simp only [List.length_cons]
    omega

theorem splitSlash_abs (s : String) (h : hasPfx s "/" = true) :
    ∃ rest, splitSlash s = "" :: rest ∧ rest ≠ [] := by
  obtain ⟨r, hr⟩ := hasPfx_iff.mp h
  have hr' : s.data = '/' :: r := hr
  refine ⟨splitSlashAux r [], ?_, splitSlashAux_ne_nil r []⟩
  unfold splitSlash
  rw [hr']
  simp [splitSlashAux]

/-- C8: for a pattern whose normalized (cleaned) form contains no glob
metacharacter in any component — equivalently, no metacharacter at all,
since the separator is not a metacharacter — `splitPattern` returns the
normalized pattern's parent directory (`filepath.Dir`) as the base and
its final component (`filepath.Base`) as the glob expression. -/
theorem splitPattern_no_meta (p : String)
    (h : containsMeta (filepathClean p) = false) :
    splitPattern p = (filepathDir (filepathClean p), filepathBase (filepathClean p)) := by
  have hcl : ∀ e ∈ splitSlash (filepathClean p), containsMeta e = false :=
    containsMeta_parts _ h
  cases habs : filepathIsAbs (filepathClean p) with
  | false =>
    have hscan : scanMeta (splitSlash (filepathClean p)) 0 =
        (splitSlash (filepathClean p)).length := by
      simpa using scanMeta_all_clean _ 0 hcl
    have hne : ¬((splitSlash (filepathClean p)).length = 0) := by
      intro h0
      exact splitSlash_ne_nil _ (List.length_eq_zero.mp h0)
    simp only [splitPattern, habs, Bool.false_and, Bool.false_eq_true, if_false,
      List.drop_zero, hscan]
    rw [if_neg hne]
    simp
  | true =>
    obtain ⟨rest, hsplit, hrest⟩ := splitSlash_abs (filepathClean p) habs
    have hclean' : ∀ x ∈ rest, containsMeta x = false := by
      intro x hx
      exact hcl x (by rw [hsplit]; exact List.mem_cons_of_mem _ hx)
    have hscan : scanMeta rest 1 = 1 + rest.length := scanMeta_all_clean rest 1 hclean'
    have hne1 : ¬(1 + rest.length = 1) := by
      cases rest with
      | nil => exact absurd rfl hrest
      | cons a as => simp
    simp only [splitPattern, habs, hsplit, List.head?_cons, Bool.true_and, decide_eq_true_eq,
      if_true, List.drop_one, List.tail_cons, List.drop_succ_cons, List.drop_zero, hscan,
      List.length_cons]
    rw [if_neg hne1, if_pos (by omega)]

theorem splitPattern_no_meta_witness :
    containsMeta (filepathClean "proj/sub/c.txt") = false ∧
    splitPattern "proj/sub/c.txt" = ("proj/sub", "c.txt") ∧
    filepathDir (filepathClean "proj/sub/c.txt") = "proj/sub" ∧
    filepathBase (filepathClean "proj/sub/c.txt") = "c.txt" :=
  ⟨rfl, by rw [splitPattern_no_meta "proj/sub/c.txt" rfl]; rfl, rfl, rfl⟩

end SuggestFile
